import Mathlib

/-!
# Verification of the nonlinear-elasticity exact Riemann solver

A shallow embedding of the code in `Nonlinear_elasticity.ipynb` (the helper
functions `dsigma`, `lambda1`, `lambda2`, the plotting entry points, and the
concrete example problem), together with a model, taken from the design
specification, of the exact Riemann solver `exact_riemann_solution` that the
notebook imports from `exact_solvers/nonlinear_elasticity.py` (that file is
not part of the sources available here).

States are pairs (strain ε, momentum ρu); material parameters are triples
(ρ, K1, K2); the stress law is σ(ε) = K1·ε + K2·ε².
-/

namespace NonlinearElasticity

noncomputable section

/-- A physical state `(ε, ρu)`: strain and momentum, in this order,
mirroring the two-component numpy arrays `q` of the notebook. -/
abbrev State := ℝ × ℝ

/-- Material parameters `(ρ, K1, K2)`, mirroring the three-component
numpy arrays `aux` of the notebook. -/
abbrev Params := ℝ × ℝ × ℝ

/-- The quadratic stress law σ(ε) = K1·ε + K2·ε² used throughout the
notebook (stated in its markdown; the stress function itself lives in
the external `exact_solvers` module). -/
def sigma (eps K1 K2 : ℝ) : ℝ := K1 * eps + K2 * eps ^ 2

/-- `dsigma(eps, K1, K2)` from the notebook: "Derivative of stress
w.r.t. strain.", returning `K1 + 2*K2*eps`. -/
def dsigma (eps K1 K2 : ℝ) : ℝ := K1 + 2 * K2 * eps

/-- `lambda1(q, xi, aux)` from the notebook:
`-np.sqrt(dsigma(eps, K1, K2)/rho)` with `eps = q[0]`, `aux = (rho, K1, K2)`.
`np.sqrt` on a nonnegative argument is modelled by `Real.sqrt`. -/
def lambda1 (q : State) (xi : ℝ) (aux : Params) : ℝ :=
  -Real.sqrt (dsigma q.1 aux.2.1 aux.2.2 / aux.1)

/-- `lambda2(q, xi, aux)` from the notebook: `-lambda1(q, xi, aux)`. -/
def lambda2 (q : State) (xi : ℝ) (aux : Params) : ℝ :=
  -(lambda1 q xi aux)

/-- `np.sqrt` with NaN tracked explicitly: on a negative argument numpy's
`sqrt` emits a RuntimeWarning and returns NaN (it does not raise an
exception); we model the NaN result as `none`. -/
def npSqrt (x : ℝ) : Option ℝ := if 0 ≤ x then some (Real.sqrt x) else none

/-- `lambda1` under the NaN-tracking semantics of `npSqrt`: the notebook's
`lambda1` applies `np.sqrt` to `dsigma/rho` and negates the result, so a
NaN argument propagates to a NaN speed. -/
def lambda1Np (q : State) (xi : ℝ) (aux : Params) : Option ℝ :=
  (npSqrt (dsigma q.1 aux.2.1 aux.2.2 / aux.1)).map (fun s => -s)

/-- Claim C3: `dsigma(ε, K1, K2)` returns exactly `K1 + 2·K2·ε` for every
real ε, K1, K2, and this value is the ε-derivative of the quadratic stress
law σ = K1·ε + K2·ε². -/
theorem dsigma_is_stress_derivative (eps K1 K2 : ℝ) :
    dsigma eps K1 K2 = K1 + 2 * K2 * eps ∧
    HasDerivAt (fun e => sigma e K1 K2) (dsigma eps K1 K2) eps := by
  refine ⟨rfl, ?_⟩
  have h1 : HasDerivAt (fun e : ℝ => K1 * e) K1 eps := by
    simpa using (hasDerivAt_id eps).const_mul K1
  have h2 : HasDerivAt (fun e : ℝ => K2 * e ^ 2) (K2 * (2 * eps)) eps := by
    simpa using (hasDerivAt_pow 2 eps).const_mul K2
  have h := h1.add h2
  have heq : K1 + K2 * (2 * eps) = dsigma eps K1 K2 := by
    simp [dsigma]; ring
  rw [heq] at h
  simpa [sigma] using h

/-- Claim C2: whenever ρ > 0 and K1 + 2·K2·ε ≥ 0 (ε the strain of `q`),
the family-1 characteristic speed is ≤ 0 and the family-2 speed is ≥ 0. -/
theorem lambda_sign (q : State) (xi : ℝ) (aux : Params)
    (hrho : 0 < aux.1) (hds : 0 ≤ aux.2.1 + 2 * aux.2.2 * q.1) :
    lambda1 q xi aux ≤ 0 ∧ 0 ≤ lambda2 q xi aux := by
  have h := Real.sqrt_nonneg (dsigma q.1 aux.2.1 aux.2.2 / aux.1)
  constructor
  · simpa [lambda1] using neg_nonpos.mpr h
  · simpa [lambda2, lambda1] using h

/-- Concrete instance of `lambda_sign` at q = (1, 0), ξ = 0,
aux = (1, 2, 3). -/
theorem lambda_sign_witness :
    lambda1 ((1 : ℝ), 0) 0 ((1 : ℝ), 2, 3) ≤ 0 ∧
    0 ≤ lambda2 ((1 : ℝ), 0) 0 ((1 : ℝ), 2, 3) :=
  lambda_sign ((1 : ℝ), 0) 0 ((1 : ℝ), 2, 3) (by norm_num) (by norm_num)

/-- Claim C9: `lambda2` is the exact pointwise negation of `lambda1`
(and hence equals `+√(dσ/dε / ρ)`). -/
theorem lambda2_eq_neg_lambda1 (q : State) (xi : ℝ) (aux : Params) :
    lambda2 q xi aux = -(lambda1 q xi aux) ∧
    lambda2 q xi aux = Real.sqrt (dsigma q.1 aux.2.1 aux.2.2 / aux.1) := by
  exact ⟨rfl, by simp [lambda2, lambda1]⟩

/-- Helper: under ρ > 0 and K2 > 0, the sqrt of dσ/dε over ρ grows strictly
with the strain, on strains where dσ/dε is nonnegative. -/
theorem sqrt_dsigma_strict_mono (rho K1 K2 a b : ℝ) (hrho : 0 < rho)
    (hK2 : 0 < K2) (ha : 0 ≤ K1 + 2 * K2 * a) (hab : a < b) :
    Real.sqrt (dsigma a K1 K2 / rho) < Real.sqrt (dsigma b K1 K2 / rho) := by
  apply Real.sqrt_lt_sqrt
  · exact div_nonneg (by simpa [dsigma] using ha) hrho.le
  · apply div_lt_div_of_pos_right _ hrho
    have : 2 * K2 * a < 2 * K2 * b := by
      have h2 : (0 : ℝ) < 2 * K2 := by linarith
      exact (mul_lt_mul_left h2).mpr hab
    simpa [dsigma] using by linarith

/-- Claim C5: for ρ > 0 and K2 > 0, the family-1 speed is strictly
decreasing in the strain on the region where K1 + 2·K2·ε ≥ 0, and for any
two strains in that region, λ⁻(ε_l) > λ⁻(ε*_l) holds iff ε*_l > ε_l. -/
theorem lambda1_strictAnti (rho K1 K2 m : ℝ) (hrho : 0 < rho) (hK2 : 0 < K2) :
    StrictAntiOn (fun eps => lambda1 (eps, m) 0 (rho, K1, K2))
      {eps | 0 ≤ K1 + 2 * K2 * eps} ∧
    ∀ el es, 0 ≤ K1 + 2 * K2 * el → 0 ≤ K1 + 2 * K2 * es →
      (lambda1 (el, m) 0 (rho, K1, K2) > lambda1 (es, m) 0 (rho, K1, K2) ↔
        es > el) := by
  constructor
  · intro a ha b hb hab
    have := sqrt_dsigma_strict_mono rho K1 K2 a b hrho hK2 ha hab
    simpa [lambda1] using neg_lt_neg this
  · intro el es hel hes
    constructor
    · intro hgt
      by_contra hle
      push_neg at hle
      rcases lt_or_eq_of_le hle with h | h
      · have := sqrt_dsigma_strict_mono rho K1 K2 es el hrho hK2 hes h
        have h2 : lambda1 (el, m) 0 (rho, K1, K2) <
            lambda1 (es, m) 0 (rho, K1, K2) := by
          simpa [lambda1] using neg_lt_neg this
        linarith
      · rw [h] at hgt
        exact lt_irrefl _ hgt
    · intro hlt
      have := sqrt_dsigma_strict_mono rho K1 K2 el es hrho hK2 hel hlt
      simpa [lambda1] using neg_lt_neg this

/-- Concrete instance of `lambda1_strictAnti`: with ρ = 1, K1 = 0, K2 = 1,
momentum 0, the entropy equivalence at strains 0 and 1. -/
theorem lambda1_strictAnti_witness :
    lambda1 ((0 : ℝ), 0) 0 ((1 : ℝ), 0, 1) >
        lambda1 ((1 : ℝ), 0) 0 ((1 : ℝ), 0, 1) ↔ (1 : ℝ) > 0 :=
  (lambda1_strictAnti 1 0 1 0 (by norm_num) (by norm_num)).2 0 1
    (by norm_num) (by norm_num)

/-- Counterexample to claim C4: at q = (-1, 0), aux = (ρ, K1, K2) = (1, 0, 1)
the stress slope is dσ/dε = -2 < 0 and the code's `lambda1` silently returns
NaN (modelled as `none`); no input-validity fault is reported — `np.sqrt`
only emits a RuntimeWarning and produces NaN. -/
theorem lambda1_no_error_on_bad_slope :
    lambda1Np ((-1 : ℝ), 0) 0 ((1 : ℝ), 0, 1) = none := by
  norm_num [lambda1Np, npSqrt, dsigma]

/-- Claim C4 (amended): whenever ρ > 0 and the stress slope
dσ/dε = K1 + 2·K2·ε is negative, `lambda1` silently yields a NaN speed
(modelled as `none`); there is no explicit error result. -/
theorem lambda1Np_nan (q : State) (xi : ℝ) (aux : Params)
    (hrho : 0 < aux.1) (hds : dsigma q.1 aux.2.1 aux.2.2 < 0) :
    lambda1Np q xi aux = none := by
  have hneg : dsigma q.1 aux.2.1 aux.2.2 / aux.1 < 0 :=
    div_neg_of_neg_of_pos hds hrho
  simp [lambda1Np, npSqrt, not_le.mpr hneg]

/-- Concrete instance of `lambda1Np_nan` at q = (-3, 0), aux = (2, 1, 1). -/
theorem lambda1Np_nan_witness :
    lambda1Np ((-3 : ℝ), 0) 0 ((2 : ℝ), 1, 1) = none :=
  lambda1Np_nan ((-3 : ℝ), 0) 0 ((2 : ℝ), 1, 1) (by norm_num)
    (by norm_num [dsigma])

/-! ## Model of the exact Riemann solver

The function `exact_riemann_solution` lives in
`exact_solvers/nonlinear_elasticity.py`, which is not among the sources
available here; it is modelled from the design specification below. -/

/-- Modelled from the spec: the left integral-curve velocity
u*_l = u_l + (σ_{l,ε}(ε*_l)^{3/2} − σ_{l,ε}(ε_l)^{3/2}) / (3·K2_l·√ρ_l),
with u_l the velocity `momentum / ρ` of the left input state and
x^{3/2} written as (√x)³ (the two agree on the nonnegative stress slopes
for which the formula is meant). -/
def ustar_l (q_l : State) (aux_l : Params) (epsStar : ℝ) : ℝ :=
  q_l.2 / aux_l.1 +
    (Real.sqrt (dsigma epsStar aux_l.2.1 aux_l.2.2) ^ 3 -
        Real.sqrt (dsigma q_l.1 aux_l.2.1 aux_l.2.2) ^ 3) /
      (3 * aux_l.2.2 * Real.sqrt aux_l.1)

/-- Modelled from the spec: the right integral-curve velocity
u*_r = u_r − (σ_{r,ε}(ε*_r)^{3/2} − σ_{r,ε}(ε_r)^{3/2}) / (3·K2_r·√ρ_r). -/
def ustar_r (q_r : State) (aux_r : Params) (epsStar : ℝ) : ℝ :=
  q_r.2 / aux_r.1 -
    (Real.sqrt (dsigma epsStar aux_r.2.1 aux_r.2.2) ^ 3 -
        Real.sqrt (dsigma q_r.1 aux_r.2.1 aux_r.2.2) ^ 3) /
      (3 * aux_r.2.2 * Real.sqrt aux_r.1)

/-- Modelled from the spec: the root-finder's success condition — the
intermediate strains (ε*_l, ε*_r) satisfy velocity continuity
u*_l(ε*_l) = u*_r(ε*_r) and stress continuity
σ_l(ε*_l) = σ_r(ε*_r) across the stationary interface at ξ = 0. -/
def RootEqs (q_l q_r : State) (aux_l aux_r : Params) (epsl epsr : ℝ) : Prop :=
  ustar_l q_l aux_l epsl = ustar_r q_r aux_r epsr ∧
  sigma epsl aux_l.2.1 aux_l.2.2 = sigma epsr aux_r.2.1 aux_r.2.2

/-- Wave type of a genuinely nonlinear family. -/
inductive WaveType
  | shock
  | rarefaction
  deriving DecidableEq

/-- Modelled from the spec: the wave classifier — shock iff the entropy
condition ε* > ε holds on that side, else rarefaction. -/
def classify (eps epsStar : ℝ) : WaveType :=
  if epsStar > eps then WaveType.shock else WaveType.rarefaction

/-- Modelled from the spec: the 1-shock speed
s¹ = −√((σ_l(ε*_l) − σ_l(ε_l))·(ε*_l − ε_l)/ρ_l). -/
def shockSpeed1 (q_l : State) (aux_l : Params) (epsl : ℝ) : ℝ :=
  -Real.sqrt ((sigma epsl aux_l.2.1 aux_l.2.2 -
      sigma q_l.1 aux_l.2.1 aux_l.2.2) * (epsl - q_l.1) / aux_l.1)

/-- Modelled from the spec: the 2-shock speed (mirror of `shockSpeed1`). -/
def shockSpeed2 (q_r : State) (aux_r : Params) (epsr : ℝ) : ℝ :=
  Real.sqrt ((sigma epsr aux_r.2.1 aux_r.2.2 -
      sigma q_r.1 aux_r.2.1 aux_r.2.2) * (epsr - q_r.1) / aux_r.1)

/-- Modelled from the spec: the family-1 wave speed reported in the
solution aggregate — the shock speed for a shock, the leading fan edge
λ⁻(ε_l) for a rarefaction. -/
def speed1 (q_l : State) (aux_l : Params) (epsl : ℝ) : ℝ :=
  if classify q_l.1 epsl = WaveType.shock then shockSpeed1 q_l aux_l epsl
  else lambda1 q_l 0 aux_l

/-- Modelled from the spec: the family-2 wave speed reported in the
solution aggregate (mirror of `speed1`). -/
def speed2 (q_r : State) (aux_r : Params) (epsr : ℝ) : ℝ :=
  if classify q_r.1 epsr = WaveType.shock then shockSpeed2 q_r aux_r epsr
  else lambda2 q_r 0 aux_r

/-- Modelled from the spec: pointwise rarefaction-fan strain
ε(ξ) = (ρ·ξ² − K1)/(2·K2). -/
def fanEps (aux : Params) (xi : ℝ) : ℝ :=
  (aux.1 * xi ^ 2 - aux.2.1) / (2 * aux.2.2)

/-- Modelled from the spec: state inside a 1-rarefaction fan — strain ε(ξ)
and momentum ρ_l·u with u from the left integral-curve relation. -/
def fanState1 (q_l : State) (aux_l : Params) (xi : ℝ) : State :=
  (fanEps aux_l xi, aux_l.1 * ustar_l q_l aux_l (fanEps aux_l xi))

/-- Modelled from the spec: state inside a 2-rarefaction fan. -/
def fanState2 (q_r : State) (aux_r : Params) (xi : ℝ) : State :=
  (fanEps aux_r xi, aux_r.1 * ustar_r q_r aux_r (fanEps aux_r xi))

/-- Modelled from the spec: the self-similar solution evaluator ξ ↦ state.
Left of ξ = 0 it resolves the 1-wave (shock jump at s¹, or fan between
λ⁻(ε_l) and λ⁻(ε*_l)); at and right of ξ = 0 it resolves the 2-wave
symmetrically; the jump at ξ = 0 between the two star states is the
stationary interface wave. -/
def revalFn (q_l q_r : State) (aux_l aux_r : Params) (epsl epsr : ℝ)
    (xi : ℝ) : State :=
  if xi < 0 then
    if classify q_l.1 epsl = WaveType.shock then
      if xi < shockSpeed1 q_l aux_l epsl then q_l
      else (epsl, aux_l.1 * ustar_l q_l aux_l epsl)
    else
      if xi ≤ lambda1 q_l xi aux_l then q_l
      else if xi < lambda1 (epsl, 0) xi aux_l then fanState1 q_l aux_l xi
      else (epsl, aux_l.1 * ustar_l q_l aux_l epsl)
  else
    if classify q_r.1 epsr = WaveType.shock then
      if xi < shockSpeed2 q_r aux_r epsr then
        (epsr, aux_r.1 * ustar_r q_r aux_r epsr)
      else q_r
    else
      if xi ≤ lambda2 (epsr, 0) xi aux_r then
        (epsr, aux_r.1 * ustar_r q_r aux_r epsr)
      else if xi < lambda2 q_r xi aux_r then fanState2 q_r aux_r xi
      else q_r

/-- The output aggregate of the exact solver, in the order in which the
python function returns (and every call site unpacks) its components:
states, speeds, reval, wave_types. -/
structure RiemannSolution where
  states : State × State × State × State
  speeds : ℝ × ℝ
  reval : ℝ → State
  waveTypes : WaveType × WaveType

/-- Modelled from the spec: the solution aggregate built from resolved
intermediate strains — ordered states [left, left-star, right-star, right]
with star momenta ρ·u* from each side's integral curve, one speed and one
wave type per nonlinear family, and the evaluator. -/
def mkSolution (q_l q_r : State) (aux_l aux_r : Params) (epsl epsr : ℝ) :
    RiemannSolution where
  states := (q_l, (epsl, aux_l.1 * ustar_l q_l aux_l epsl),
    (epsr, aux_r.1 * ustar_r q_r aux_r epsr), q_r)
  speeds := (speed1 q_l aux_l epsl, speed2 q_r aux_r epsr)
  reval := revalFn q_l q_r aux_l aux_r epsl epsr
  waveTypes := (classify q_l.1 epsl, classify q_r.1 epsr)

/-- Modelled from the spec: `exact_riemann_solution(q_l, q_r, aux_l, aux_r)`
as a relation — `out` is a possible result iff it is the solution aggregate
built from intermediate strains that the iterative root-finder has resolved,
i.e. strains satisfying the velocity- and stress-continuity equations. -/
def Solves (q_l q_r : State) (aux_l aux_r : Params)
    (out : RiemannSolution) : Prop :=
  ∃ epsl epsr, RootEqs q_l q_r aux_l aux_r epsl epsr ∧
    out = mkSolution q_l q_r aux_l aux_r epsl epsr

/-- Helper: the family-1 reported speed is never positive. -/
theorem speed1_nonpos (q_l : State) (aux_l : Params) (epsl : ℝ) :
    speed1 q_l aux_l epsl ≤ 0 := by
  unfold speed1
  split
  · simpa [shockSpeed1] using neg_nonpos.mpr (Real.sqrt_nonneg _)
  · simpa [lambda1] using neg_nonpos.mpr (Real.sqrt_nonneg _)

/-- Helper: the family-2 reported speed is never negative. -/
theorem speed2_nonneg (q_r : State) (aux_r : Params) (epsr : ℝ) :
    0 ≤ speed2 q_r aux_r epsr := by
  unfold speed2
  split
  · simpa [shockSpeed2] using Real.sqrt_nonneg _
  · simpa [lambda2, lambda1] using Real.sqrt_nonneg _

/-- Claim C1: whenever the solver succeeds (densities nonzero), the two star
states it returns have equal velocities (momentum/ρ agrees across ξ = 0)
and equal stresses, even though the strains and momenta themselves may
jump across the interface. -/
theorem interface_conditions (q_l q_r : State) (aux_l aux_r : Params)
    (out : RiemannSolution) (hl : aux_l.1 ≠ 0) (hr : aux_r.1 ≠ 0)
    (h : Solves q_l q_r aux_l aux_r out) :
    out.states.2.1.2 / aux_l.1 = out.states.2.2.1.2 / aux_r.1 ∧
    sigma out.states.2.1.1 aux_l.2.1 aux_l.2.2 =
      sigma out.states.2.2.1.1 aux_r.2.1 aux_r.2.2 := by
  obtain ⟨epsl, epsr, ⟨hu, hs⟩, rfl⟩ := h
  refine ⟨?_, ?_⟩
  · show aux_l.1 * ustar_l q_l aux_l epsl / aux_l.1 =
      aux_r.1 * ustar_r q_r aux_r epsr / aux_r.1
    rw [mul_div_cancel_left₀ _ hl, mul_div_cancel_left₀ _ hr]
    exact hu
  · exact hs

/-- Concrete instance of `interface_conditions` on the uniform problem
with both states (0, 0) and both parameter triples (1, 1, 1). -/
theorem interface_conditions_witness :
    (mkSolution ((0 : ℝ), 0) ((0 : ℝ), 0) ((1 : ℝ), 1, 1) ((1 : ℝ), 1, 1)
        0 0).states.2.1.2 / (1 : ℝ) =
      (mkSolution ((0 : ℝ), 0) ((0 : ℝ), 0) ((1 : ℝ), 1, 1) ((1 : ℝ), 1, 1)
        0 0).states.2.2.1.2 / (1 : ℝ) ∧
    sigma (mkSolution ((0 : ℝ), 0) ((0 : ℝ), 0) ((1 : ℝ), 1, 1)
        ((1 : ℝ), 1, 1) 0 0).states.2.1.1 1 1 =
      sigma (mkSolution ((0 : ℝ), 0) ((0 : ℝ), 0) ((1 : ℝ), 1, 1)
        ((1 : ℝ), 1, 1) 0 0).states.2.2.1.1 1 1 :=
  interface_conditions ((0 : ℝ), 0) ((0 : ℝ), 0) ((1 : ℝ), 1, 1)
    ((1 : ℝ), 1, 1) _ (by norm_num) (by norm_num)
    ⟨0, 0, ⟨by simp [ustar_l, ustar_r], rfl⟩, rfl⟩

/-- Claim C7: every result of the solve relation is the four-component
aggregate in the order (states, speeds, reval, wave_types): the states are
the ordered quadruple [left input, left-star, right-star, right input], the
two wave speeds are ordered (1-speed ≤ 0 ≤ 2-speed), there is one wave type
per nonlinear family, and the evaluator is the self-similar profile of the
resolved strains. -/
theorem solve_shape (q_l q_r : State) (aux_l aux_r : Params)
    (out : RiemannSolution) (h : Solves q_l q_r aux_l aux_r out) :
    out.states.1 = q_l ∧ out.states.2.2.2 = q_r ∧
    out.speeds.1 ≤ 0 ∧ 0 ≤ out.speeds.2 ∧ out.speeds.1 ≤ out.speeds.2 ∧
    ∃ epsl epsr, RootEqs q_l q_r aux_l aux_r epsl epsr ∧
      out.states.2.1 = (epsl, aux_l.1 * ustar_l q_l aux_l epsl) ∧
      out.states.2.2.1 = (epsr, aux_r.1 * ustar_r q_r aux_r epsr) ∧
      out.waveTypes = (classify q_l.1 epsl, classify q_r.1 epsr) ∧
      out.reval = revalFn q_l q_r aux_l aux_r epsl epsr := by
  obtain ⟨epsl, epsr, hroot, rfl⟩ := h
  refine ⟨rfl, rfl, speed1_nonpos q_l aux_l epsl, speed2_nonneg q_r aux_r epsr,
    le_trans (speed1_nonpos q_l aux_l epsl) (speed2_nonneg q_r aux_r epsr),
    epsl, epsr, hroot, rfl, rfl, rfl, rfl⟩

/-- Concrete instance of `solve_shape` on the uniform problem with both
states (0, 0) and both parameter triples (1, 2, 1). -/
theorem solve_shape_witness :
    (mkSolution ((0 : ℝ), 0) ((0 : ℝ), 0) ((1 : ℝ), 2, 1) ((1 : ℝ), 2, 1)
        0 0).states.1 = ((0 : ℝ), 0) ∧
    (mkSolution ((0 : ℝ), 0) ((0 : ℝ), 0) ((1 : ℝ), 2, 1) ((1 : ℝ), 2, 1)
        0 0).states.2.2.2 = ((0 : ℝ), 0) ∧
    (mkSolution ((0 : ℝ), 0) ((0 : ℝ), 0) ((1 : ℝ), 2, 1) ((1 : ℝ), 2, 1)
        0 0).speeds.1 ≤ 0 ∧
    0 ≤ (mkSolution ((0 : ℝ), 0) ((0 : ℝ), 0) ((1 : ℝ), 2, 1)
        ((1 : ℝ), 2, 1) 0 0).speeds.2 ∧
    (mkSolution ((0 : ℝ), 0) ((0 : ℝ), 0) ((1 : ℝ), 2, 1) ((1 : ℝ), 2, 1)
        0 0).speeds.1 ≤
      (mkSolution ((0 : ℝ), 0) ((0 : ℝ), 0) ((1 : ℝ), 2, 1) ((1 : ℝ), 2, 1)
        0 0).speeds.2 ∧
    ∃ epsl epsr,
      RootEqs ((0 : ℝ), 0) ((0 : ℝ), 0) ((1 : ℝ), 2, 1) ((1 : ℝ), 2, 1)
        epsl epsr ∧
      (mkSolution ((0 : ℝ), 0) ((0 : ℝ), 0) ((1 : ℝ), 2, 1) ((1 : ℝ), 2, 1)
          0 0).states.2.1 =
        (epsl, (1 : ℝ) * ustar_l ((0 : ℝ), 0) ((1 : ℝ), 2, 1) epsl) ∧
      (mkSolution ((0 : ℝ), 0) ((0 : ℝ), 0) ((1 : ℝ), 2, 1) ((1 : ℝ), 2, 1)
          0 0).states.2.2.1 =
        (epsr, (1 : ℝ) * ustar_r ((0 : ℝ), 0) ((1 : ℝ), 2, 1) epsr) ∧
      (mkSolution ((0 : ℝ), 0) ((0 : ℝ), 0) ((1 : ℝ), 2, 1) ((1 : ℝ), 2, 1)
          0 0).waveTypes = (classify (0 : ℝ) epsl, classify (0 : ℝ) epsr) ∧
      (mkSolution ((0 : ℝ), 0) ((0 : ℝ), 0) ((1 : ℝ), 2, 1) ((1 : ℝ), 2, 1)
          0 0).reval =
        revalFn ((0 : ℝ), 0) ((0 : ℝ), 0) ((1 : ℝ), 2, 1) ((1 : ℝ), 2, 1)
          epsl epsr :=
  solve_shape ((0 : ℝ), 0) ((0 : ℝ), 0) ((1 : ℝ), 2, 1) ((1 : ℝ), 2, 1) _
    ⟨0, 0, ⟨by simp [ustar_l, ustar_r], rfl⟩, rfl⟩

/-! ## Argument plumbing of the plotting entry points -/

/-- The argument tuple that a plotting entry point hands to the exact
solver `exact_riemann_solution(q_l, q_r, aux_l, aux_r)`. -/
structure SolverCall where
  q_l : State
  q_r : State
  aux_l : Params
  aux_r : Params

/-- `make_plot_function(q_l, q_r, aux_l, aux_r)` from the notebook calls
`exact_riemann_solution(q_l, q_r, aux_l, aux_r)`; this definition records
the solver invocation it makes. -/
def make_plot_function_call (q_l q_r : State) (aux_l aux_r : Params) :
    SolverCall :=
  ⟨q_l, q_r, aux_l, aux_r⟩

/-- `plot_riemann_nonlinear_elasticity(rho_l, rho_r, v_l, v_r)` from the
notebook calls `make_plot_function(rho_l, rho_r, v_l, v_r)`; this
definition records the solver invocation that results. -/
def plot_riemann_nonlinear_elasticity_call (rho_l rho_r : State)
    (v_l v_r : Params) : SolverCall :=
  make_plot_function_call rho_l rho_r v_l v_r

/-- Claim C10: the plotting entry point forwards its four arguments
positionally and unchanged to the solver, so — despite the parameter names
rho_l, rho_r, v_l, v_r — its first two arguments arrive as the left/right
states q_l, q_r and its last two as the material triples aux_l, aux_r. -/
theorem plot_riemann_forwards_args (a b : State) (c d : Params) :
    plot_riemann_nonlinear_elasticity_call a b c d =
      make_plot_function_call a b c d ∧
    (plot_riemann_nonlinear_elasticity_call a b c d).q_l = a ∧
    (plot_riemann_nonlinear_elasticity_call a b c d).q_r = b ∧
    (plot_riemann_nonlinear_elasticity_call a b c d).aux_l = c ∧
    (plot_riemann_nonlinear_elasticity_call a b c d).aux_r = d :=
  ⟨rfl, rfl, rfl, rfl, rfl⟩

/-! ## The concrete scenario of the notebook

`q_l = (2.1, 0)`, `q_r = (0, 0)`, `aux_l = (1, 5, 1)`, `aux_r = (1, 2, 1)`
(cell 15 of the notebook). -/

/-- The left state of the notebook's example problem. -/
def qL6 : State := ((2.1 : ℝ), 0)

/-- The right state of the notebook's example problem. -/
def qR6 : State := ((0 : ℝ), 0)

/-- The left material parameters of the notebook's example problem. -/
def auxL6 : Params := ((1 : ℝ), 5, 1)

/-- The right material parameters of the notebook's example problem. -/
def auxR6 : Params := ((1 : ℝ), 2, 1)

/-- The right strain that matches stresses with a given left strain in
the example problem: σ_r(rmatch x) = σ_l(x) on the branch ε > -1, since
σ_r(ε) = 2ε + ε² = (1 + ε)² − 1. -/
def rmatch (x : ℝ) : ℝ := -1 + Real.sqrt (1 + sigma x 5 1)

/-- The scalar residual the root-finder drives to zero on the example
problem: the velocity mismatch between the two integral curves, with the
right strain eliminated through stress continuity. -/
def g6 (x : ℝ) : ℝ := ustar_l qL6 auxL6 x - ustar_r qR6 auxR6 (rmatch x)

/-- Helper: the left integral-curve velocity on the example problem. -/
theorem ustar_l6_eq (x : ℝ) :
    ustar_l qL6 auxL6 x =
      (Real.sqrt (5 + 2 * x) ^ 3 - Real.sqrt 9.2 ^ 3) / 3 := by
  have h1 : (5 : ℝ) + 2 * 1 * x = 5 + 2 * x := by ring
  have h2 : (5 : ℝ) + 2 * 1 * 2.1 = 9.2 := by norm_num
  simp [ustar_l, qL6, auxL6, dsigma, h1, h2, Real.sqrt_one]
  norm_num

/-- Helper: the right integral-curve velocity on the example problem. -/
theorem ustar_r6_eq (y : ℝ) :
    ustar_r qR6 auxR6 y =
      -((Real.sqrt (2 + 2 * y) ^ 3 - Real.sqrt 2 ^ 3) / 3) := by
  have h1 : (2 : ℝ) + 2 * 1 * y = 2 + 2 * y := by ring
  have h2 : (2 : ℝ) + 2 * 1 * 0 = 2 := by norm_num
  simp [ustar_r, qR6, auxR6, dsigma, h1, h2, Real.sqrt_one]

/-- Helper: the stress-matched argument of the right wave curve. -/
theorem rmatch_arg (x : ℝ) :
    2 + 2 * rmatch x = 2 * Real.sqrt (1 + sigma x 5 1) := by
  unfold rmatch; ring

/-- Helper: closed form of the residual on the example problem. -/
theorem g6_eq (x : ℝ) :
    g6 x = (Real.sqrt (5 + 2 * x) ^ 3 - Real.sqrt 9.2 ^ 3) / 3 +
      (Real.sqrt (2 * Real.sqrt (1 + sigma x 5 1)) ^ 3 -
        Real.sqrt 2 ^ 3) / 3 := by
  unfold g6
  rw [ustar_l6_eq, ustar_r6_eq, rmatch_arg]
  ring

/-- Helper: the residual is a continuous function of the left strain. -/
theorem g6_continuous : Continuous g6 := by
  have hfun : g6 = fun x => (Real.sqrt (5 + 2 * x) ^ 3 -
      Real.sqrt 9.2 ^ 3) / 3 +
      (Real.sqrt (2 * Real.sqrt (1 + sigma x 5 1)) ^ 3 -
        Real.sqrt 2 ^ 3) / 3 := funext g6_eq
  rw [hfun]
  have h1 : Continuous fun x : ℝ => Real.sqrt (5 + 2 * x) ^ 3 :=
    (Real.continuous_sqrt.comp (by continuity)).pow 3
  have h2 : Continuous fun x : ℝ =>
      Real.sqrt (2 * Real.sqrt (1 + sigma x 5 1)) ^ 3 := by
    have hin : Continuous fun x : ℝ => 2 * Real.sqrt (1 + sigma x 5 1) := by
      have : Continuous fun x : ℝ => 1 + sigma x 5 1 := by
        simp only [sigma]; continuity
      exact continuous_const.mul (Real.continuous_sqrt.comp this)
    exact (Real.continuous_sqrt.comp hin).pow 3
  exact ((h1.sub continuous_const).div_const 3).add
    ((h2.sub continuous_const).div_const 3)

/-- Helper: the residual is negative at left strain 0.9. -/
theorem g6_neg : g6 (0.9 : ℝ) < 0 := by
  rw [g6_eq]
  have e1 : (5 : ℝ) + 2 * 0.9 = 6.8 := by norm_num
  have e2 : (1 : ℝ) + sigma 0.9 5 1 = 6.31 := by norm_num [sigma]
  rw [e1, e2]
  have h68 : Real.sqrt (6.8 : ℝ) < 2.608 :=
    (Real.sqrt_lt' (by norm_num)).mpr (by norm_num)
  have h68c : Real.sqrt (6.8 : ℝ) ^ 3 < 2.608 ^ 3 :=
    pow_lt_pow_left h68 (Real.sqrt_nonneg _) (by norm_num)
  have h92 : (3.033 : ℝ) < Real.sqrt 9.2 :=
    (Real.lt_sqrt (by norm_num)).mpr (by norm_num)
  have h92c : (3.033 : ℝ) ^ 3 < Real.sqrt 9.2 ^ 3 :=
    pow_lt_pow_left h92 (by norm_num) (by norm_num)
  have h631 : Real.sqrt (6.31 : ℝ) < 2.5121 :=
    (Real.sqrt_lt' (by norm_num)).mpr (by norm_num)
  have harg : 2 * Real.sqrt (6.31 : ℝ) < 2.2415 ^ 2 := by
    have : (2 : ℝ) * 2.5121 < 2.2415 ^ 2 := by norm_num
    linarith
  have h5 : Real.sqrt (2 * Real.sqrt (6.31 : ℝ)) < 2.2415 :=
    (Real.sqrt_lt' (by norm_num)).mpr harg
  have h5c : Real.sqrt (2 * Real.sqrt (6.31 : ℝ)) ^ 3 < 2.2415 ^ 3 :=
    pow_lt_pow_left h5 (Real.sqrt_nonneg _) (by norm_num)
  have h2 : (1.414 : ℝ) < Real.sqrt 2 :=
    (Real.lt_sqrt (by norm_num)).mpr (by norm_num)
  have h2c : (1.414 : ℝ) ^ 3 < Real.sqrt 2 ^ 3 :=
    pow_lt_pow_left h2 (by norm_num) (by norm_num)
  have hnum : (2.608 : ℝ) ^ 3 + 2.2415 ^ 3 < 3.033 ^ 3 + 1.414 ^ 3 := by
    norm_num
  linarith

/-- Helper: the residual is positive at left strain 2.1. -/
theorem g6_pos : 0 < g6 (2.1 : ℝ) := by
  rw [g6_eq]
  have e1 : (5 : ℝ) + 2 * 2.1 = 9.2 := by norm_num
  have e2 : (1 : ℝ) + sigma 2.1 5 1 = 15.91 := by norm_num [sigma]
  rw [e1, e2]
  have h1 : (1 : ℝ) < Real.sqrt 15.91 :=
    (Real.lt_sqrt (by norm_num)).mpr (by norm_num)
  have h2 : (2 : ℝ) < 2 * Real.sqrt 15.91 := by linarith
  have h3 : Real.sqrt 2 < Real.sqrt (2 * Real.sqrt 15.91) :=
    Real.sqrt_lt_sqrt (by norm_num) h2
  have h3c : Real.sqrt 2 ^ 3 < Real.sqrt (2 * Real.sqrt 15.91) ^ 3 :=
    pow_lt_pow_left h3 (Real.sqrt_nonneg _) (by norm_num)
  have h0 : (Real.sqrt 9.2 ^ 3 - Real.sqrt 9.2 ^ 3) / 3 = 0 := by ring
  linarith

/-- Helper: the root-finder's residual vanishes at some left strain
strictly between 0.9 and 2.1 (intermediate value theorem). -/
theorem g6_root : ∃ x0 : ℝ, 0.9 < x0 ∧ x0 < 2.1 ∧ g6 x0 = 0 := by
  have hsub := intermediate_value_Icc (by norm_num : (0.9 : ℝ) ≤ 2.1)
    g6_continuous.continuousOn
  have h0 : (0 : ℝ) ∈ Set.Icc (g6 0.9) (g6 2.1) := ⟨g6_neg.le, g6_pos.le⟩
  obtain ⟨x0, hmem, hgx⟩ := hsub h0
  refine ⟨x0, ?_, ?_, hgx⟩
  · rcases lt_or_eq_of_le hmem.1 with h | h
    · exact h
    · exact absurd (h ▸ hgx) (ne_of_lt g6_neg)
  · rcases lt_or_eq_of_le hmem.2 with h | h
    · exact h
    · exact absurd (h.symm ▸ hgx) (ne_of_gt g6_pos)

/-- Helper: the root found by the intermediate value theorem satisfies the
root-finder's continuity equations, and the matched right strain exceeds
1.51. -/
theorem root6_props : ∃ x0 : ℝ, 0.9 < x0 ∧ x0 < 2.1 ∧
    RootEqs qL6 qR6 auxL6 auxR6 x0 (rmatch x0) ∧ 1.51 < rmatch x0 := by
  obtain ⟨x0, h09, h21, hg⟩ := g6_root
  have hsig : (0 : ℝ) ≤ 1 + sigma x0 5 1 := by
    simp only [sigma]; nlinarith [sq_nonneg (x0 - 0.9)]
  have hsq : Real.sqrt (1 + sigma x0 5 1) ^ 2 = 1 + sigma x0 5 1 :=
    Real.sq_sqrt hsig
  refine ⟨x0, h09, h21, ⟨sub_eq_zero.mp hg, ?_⟩, ?_⟩
  · show sigma x0 5 1 = sigma (rmatch x0) 2 1
    simp only [sigma, rmatch] at hsq ⊢
    linear_combination -hsq
  · have h631 : (6.31 : ℝ) < 1 + sigma x0 5 1 := by
      simp only [sigma]; nlinarith [sq_nonneg (x0 - 0.9)]
    have hlt : (2.51 : ℝ) < Real.sqrt (1 + sigma x0 5 1) :=
      (Real.lt_sqrt (by norm_num)).mpr (by nlinarith)
    unfold rmatch
    linarith

/-- Claim C6: on the notebook's concrete problem q_l = (2.1, 0),
q_r = (0, 0), aux_l = (1, 5, 1), aux_r = (1, 2, 1), the exact solver has a
result: the root equations admit a solution, the returned four states have
distinct middle (star) states, the wave types are resolved by the entropy
test (1-rarefaction and 2-shock here), the evaluator takes the two distinct
star values just left and just right of ξ = 0, and stress and velocity are
nevertheless equal across ξ = 0. -/
theorem concrete_scenario_resolves :
    ∃ out : RiemannSolution, Solves qL6 qR6 auxL6 auxR6 out ∧
      out.states.1 = qL6 ∧ out.states.2.2.2 = qR6 ∧
      out.states.2.1 ≠ out.states.2.2.1 ∧
      out.waveTypes = (WaveType.rarefaction, WaveType.shock) ∧
      (∃ δ : ℝ, 0 < δ ∧ ∀ h : ℝ, 0 < h → h < δ →
        out.reval (-h) = out.states.2.1 ∧ out.reval h = out.states.2.2.1) ∧
      out.states.2.1.2 / auxL6.1 = out.states.2.2.1.2 / auxR6.1 ∧
      sigma out.states.2.1.1 auxL6.2.1 auxL6.2.2 =
        sigma out.states.2.2.1.1 auxR6.2.1 auxR6.2.2 := by
  obtain ⟨x0, h09, h21, hroot, hr151⟩ := root6_props
  have hcl1 : classify qL6.1 x0 = WaveType.rarefaction := by
    have hq : qL6.1 = (2.1 : ℝ) := rfl
    unfold classify
    rw [hq, if_neg (not_lt.mpr h21.le)]
  have hcl2 : classify qR6.1 (rmatch x0) = WaveType.shock := by
    have hq : qR6.1 = (0 : ℝ) := rfl
    unfold classify
    rw [hq, if_pos (by linarith : (0 : ℝ) < rmatch x0)]
  refine ⟨mkSolution qL6 qR6 auxL6 auxR6 x0 (rmatch x0),
    ⟨x0, rmatch x0, hroot, rfl⟩, rfl, rfl, ?_, ?_, ?_, ?_, ?_⟩
  · intro heq
    have hfst : x0 = rmatch x0 := congrArg Prod.fst heq
    have hs : sigma x0 5 1 = sigma (rmatch x0) 2 1 := hroot.2
    rw [← hfst] at hs
    simp only [sigma] at hs
    linarith
  · show (classify qL6.1 x0, classify qR6.1 (rmatch x0)) =
      (WaveType.rarefaction, WaveType.shock)
    rw [hcl1, hcl2]
  · refine ⟨1, by norm_num, fun h hh0 hh1 => ⟨?_, ?_⟩⟩
    · show revalFn qL6 qR6 auxL6 auxR6 x0 (rmatch x0) (-h) =
        (x0, auxL6.1 * ustar_l qL6 auxL6 x0)
      have hl1 : lambda1 qL6 (-h) auxL6 = -Real.sqrt 9.2 := by
        simp [lambda1, qL6, auxL6, dsigma]
        norm_num
      have hl2 : lambda1 ((x0 : ℝ), 0) (-h) auxL6 =
          -Real.sqrt (5 + 2 * x0) := by
        have e : (5 : ℝ) + 2 * 1 * x0 = 5 + 2 * x0 := by ring
        simp [lambda1, auxL6, dsigma, e]
      have h92 : (3 : ℝ) < Real.sqrt 9.2 :=
        (Real.lt_sqrt (by norm_num)).mpr (by norm_num)
      have h5 : (2 : ℝ) < Real.sqrt (5 + 2 * x0) :=
        (Real.lt_sqrt (by norm_num)).mpr (by nlinarith)
      unfold revalFn
      rw [if_pos (by linarith : -h < 0), hcl1, if_neg (by decide),
        if_neg (by rw [hl1]; exact not_le.mpr (by linarith)),
        if_neg (by rw [hl2]; exact not_lt.mpr (by linarith))]
    · show revalFn qL6 qR6 auxL6 auxR6 x0 (rmatch x0) h =
        (rmatch x0, auxR6.1 * ustar_r qR6 auxR6 (rmatch x0))
      have hsp : shockSpeed2 qR6 auxR6 (rmatch x0) =
          Real.sqrt ((2 * rmatch x0 + rmatch x0 ^ 2) * rmatch x0) := by
        have e : (sigma (rmatch x0) 2 1 - sigma (0 : ℝ) 2 1) *
            (rmatch x0 - 0) / 1 = (2 * rmatch x0 + rmatch x0 ^ 2) *
              rmatch x0 := by
          simp [sigma]
        show Real.sqrt ((sigma (rmatch x0) 2 1 - sigma (0 : ℝ) 2 1) *
          (rmatch x0 - 0) / 1) = _
        rw [e]
      have hprod : (4 : ℝ) < (2 * rmatch x0 + rmatch x0 ^ 2) * rmatch x0 := by
        nlinarith [sq_nonneg (rmatch x0 - 1.51)]
      have hsp2 : (2 : ℝ) <
          Real.sqrt ((2 * rmatch x0 + rmatch x0 ^ 2) * rmatch x0) :=
        (Real.lt_sqrt (by norm_num)).mpr (by linarith)
      unfold revalFn
      rw [if_neg (not_lt.mpr hh0.le), hcl2, if_pos rfl,
        if_pos (by rw [hsp]; linarith)]
  · show auxL6.1 * ustar_l qL6 auxL6 x0 / auxL6.1 =
      auxR6.1 * ustar_r qR6 auxR6 (rmatch x0) / auxR6.1
    have hu : ustar_l qL6 auxL6 x0 = ustar_r qR6 auxR6 (rmatch x0) :=
      hroot.1
    show (1 : ℝ) * ustar_l qL6 auxL6 x0 / 1 =
      (1 : ℝ) * ustar_r qR6 auxR6 (rmatch x0) / 1
    rw [one_mul, one_mul, div_one, div_one, hu]
  · exact hroot.2

end

end NonlinearElasticity
